import Mathlib

/-!
Shallow embedding of the streaming-response reassembly/normalization engine and
the credential lifecycle of the ghcp-ollama repository.

Sources embedded:
* `src/utils/chat_client.js`, `CopilotChatClient#parseToOllamaResp` (lines 181-264):
  buffer framing on the blank-line separator, per-frame/per-line normalization,
  the `[DONE]` terminal branch, tool-call accumulation on `incompleteResult`.
* `src/utils/http_utils.js` (`unnamed/part_000`), `sendHttpRequest` and
  `sendHttpStreamingRequest`: the chunk driver (`res.on("data")` /
  `res.on("end")` handlers) that carries `remainBuffer` between calls and
  invokes `parseResp(buffer)` with a single argument.
* `src/utils/auth_client.js` (`unnamed/part_000`), `CopilotAuth`:
  `signIn`, `#checkTokenExpired`, `#fetchAndStoreGitHubToken`.

JavaScript strings are modelled as `List Char`; JS objects that flow through the
code are modelled by a small JSON value type; `undefined` is modelled by
`Option`; exceptions thrown and caught by the per-line `try`/`catch` are
modelled by returning the state accumulated up to the throwing statement.
-/

def lchars (s : String) : List Char := s.data

/-- Whitespace for the model of JS `String.prototype.trim` (the ASCII subset
that can occur in the streamed protocol). -/
def isWSb (c : Char) : Bool := c = ' ' || c = '\n' || c = '\t' || c = '\r'

/-- Model of `buffer.split("\n\n")` (JS `String.prototype.split` with the
two-character string separator: leftmost, non-overlapping occurrences). -/
def splitNN : List Char → List (List Char)
  | [] => [[]]
  | [c] => [[c]]
  | c :: d :: rest =>
    if c = '\n' ∧ d = '\n' then [] :: splitNN rest
    else (splitNN (d :: rest)).modifyHead (c :: ·)

/-- Model of `respMessage.split("\n")` (single-character separator). -/
def splitLF : List Char → List (List Char)
  | [] => [[]]
  | c :: rest => if c = '\n' then [] :: splitLF rest else (splitLF rest).modifyHead (c :: ·)

/-- The blank-line record separator `"\n\n"`. -/
def sepNN : List Char := ['\n', '\n']

/-- Model of the JSON values produced by `JSON.parse`.  Object fields are kept
in textual order. -/
inductive Json where
  | null
  | bool (b : Bool)
  | num (n : Int)
  | str (s : List Char)
  | arr (elems : List Json)
  | obj (fields : List (List Char × Json))

/-- First field with the given key (witness payloads use distinct keys). -/
def getEntry : List (List Char × Json) → List Char → Option Json
  | [], _ => none
  | (k, v) :: rest, key => if k = key then some v else getEntry rest key

/-- JS property read `o.k` for a non-null value: `undefined` (`none`) unless
`o` is an object with the field. -/
def Json.getF : Json → List Char → Option Json
  | .obj fs, k => getEntry fs k
  | _, _ => none

def Json.isNull : Json → Bool
  | .null => true
  | _ => false

/-- JS truthiness of a defined value. -/
def jsTruthy : Json → Bool
  | .null => false
  | .bool b => b
  | .num n => n != 0
  | .str s => !s.isEmpty
  | .arr _ => true
  | .obj _ => true

/-- JS truthiness where `none` is `undefined`. -/
def jsTruthyOpt : Option Json → Bool
  | none => false
  | some j => jsTruthy j

/-- JS `a || b` for a possibly-undefined `a`. -/
def jsOr (a : Option Json) (b : Json) : Json :=
  match a with
  | some j => if jsTruthy j then j else b
  | none => b

/-- JS `v[0]`: first element of an array, first character of a string,
`undefined` otherwise. -/
def jsIndex0 : Json → Option Json
  | .arr l => l.head?
  | .str (c :: _) => some (.str [c])
  | _ => none

/-- Decimal rendering of an integer, for JS string coercion of numbers. -/
def intStr (n : Int) : List Char := (toString n).toList

/-- Model of JS string coercion `String(v)` as used by `+=` on the argument
accumulator.  Arrays are simplified to a fixed placeholder (the real coercion
joins elements with commas); no theorem below depends on that corner. -/
def jsStr : Json → List Char
  | .null => lchars "null"
  | .bool true => lchars "true"
  | .bool false => lchars "false"
  | .num n => intStr n
  | .str s => s
  | .arr _ => lchars "[array]"
  | .obj _ => lchars "[object Object]"

/-! ## A model of `JSON.parse`

Executable recursive-descent parser over `List Char`, fuelled by input length.
It accepts the JSON fragment actually exchanged by the protocol: strings with
the basic escapes (`\"`, `\\`, `\/`, `\n`, `\t`, `\r`, `\b`, `\f`), integer
numerals, `true`/`false`/`null`, arrays and objects.  Fractional/exponent
numerals and `\u` escapes are not modelled. -/

def escChar (e : Char) : Option Char :=
  if e = '"' ∨ e = '\\' ∨ e = '/' then some e
  else if e = 'n' then some '\n'
  else if e = 't' then some '\t'
  else if e = 'r' then some '\r'
  else if e = 'b' then some (Char.ofNat 8)
  else if e = 'f' then some (Char.ofNat 12)
  else none

/-- Parse the body of a JSON string after the opening quote. -/
def parseStrBody : List Char → Option (List Char × List Char)
  | [] => none
  | '"' :: rest => some ([], rest)
  | '\\' :: rest =>
    match rest with
    | [] => none
    | e :: rest2 =>
      match escChar e with
      | some c => (parseStrBody rest2).map (fun p => (c :: p.1, p.2))
      | none => none
  | c :: rest => (parseStrBody rest).map (fun p => (c :: p.1, p.2))

def digitVal (c : Char) : Nat := c.toNat - '0'.toNat

def parseDigits : Nat → List Char → Nat × List Char
  | acc, c :: rest =>
    if c.isDigit then parseDigits (acc * 10 + digitVal c) rest else (acc, c :: rest)
  | acc, [] => (acc, [])

/-- Parse an integer numeral (optional minus sign, one or more digits). -/
def parseIntLit : List Char → Option (Int × List Char)
  | '-' :: c :: rest =>
    if c.isDigit then
      let (n, r) := parseDigits (digitVal c) rest
      some (-(n : Int), r)
    else none
  | c :: rest =>
    if c.isDigit then
      let (n, r) := parseDigits (digitVal c) rest
      some ((n : Int), r)
    else none
  | [] => none

def skipWS (l : List Char) : List Char := l.dropWhile isWSb

mutual

def parseJ : Nat → List Char → Option (Json × List Char)
  | 0, _ => none
  | fuel + 1, s =>
    match skipWS s with
    | '"' :: rest => (parseStrBody rest).map (fun p => (.str p.1, p.2))
    | '[' :: rest =>
      match skipWS rest with
      | ']' :: r2 => some (.arr [], r2)
      | r2 => (parseArrElems fuel r2).map (fun p => (.arr p.1, p.2))
    | '{' :: rest =>
      match skipWS rest with
      | '}' :: r2 => some (.obj [], r2)
      | r2 => (parseObjFields fuel r2).map (fun p => (.obj p.1, p.2))
    | 't' :: 'r' :: 'u' :: 'e' :: r => some (.bool true, r)
    | 'f' :: 'a' :: 'l' :: 's' :: 'e' :: r => some (.bool false, r)
    | 'n' :: 'u' :: 'l' :: 'l' :: r => some (.null, r)
    | other => (parseIntLit other).map (fun p => (.num p.1, p.2))

def parseArrElems : Nat → List Char → Option (List Json × List Char)
  | 0, _ => none
  | fuel + 1, s =>
    match parseJ fuel s with
    | none => none
    | some (v, r) =>
      match skipWS r with
      | ',' :: r2 => (parseArrElems fuel r2).map (fun p => (v :: p.1, p.2))
      | ']' :: r2 => some ([v], r2)
      | _ => none

def parseObjFields : Nat → List Char → Option (List (List Char × Json) × List Char)
  | 0, _ => none
  | fuel + 1, s =>
    match skipWS s with
    | '"' :: rest =>
      match parseStrBody rest with
      | none => none
      | some (key, r) =>
        match skipWS r with
        | ':' :: r2 =>
          match parseJ fuel r2 with
          | none => none
          | some (v, r3) =>
            match skipWS r3 with
            | ',' :: r4 => (parseObjFields fuel r4).map (fun p => ((key, v) :: p.1, p.2))
            | '}' :: r4 => some ([(key, v)], r4)
            | _ => none
        | _ => none
    | _ => none

end

/-- Model of `JSON.parse`: parse one value, allow surrounding whitespace,
require full consumption; `none` models a thrown `SyntaxError`. -/
def jsonParse (s : List Char) : Option Json :=
  match parseJ (2 * s.length + 2) s with
  | some (v, r) => if (skipWS r).isEmpty then some v else none
  | none => none

/-! ## The Delta Normalizer (`CopilotChatClient#parseToOllamaResp`)

`incompleteResult` is modelled by `Option Accum`: `none` is the JS value
`undefined` (what the function receives when the streaming driver calls
`parseResp(buffer)` with one argument), `some a` a JS object.  A statement
that would throw a `TypeError` (property read/write on `undefined`) or a
`SyntaxError` (`JSON.parse`) is modelled by returning the messages pushed and
accumulator mutations performed before that statement; the enclosing per-line
`try`/`catch` logs and continues with the next line. -/

/-- The tool-call `arguments` slot: a growing raw string while fragments are
accumulated, replaced by the parsed value at finalization. -/
inductive ArgState where
  | raw (s : List Char)
  | parsed (j : Json)

/-- The fields ever written to `incompleteResult`. -/
structure Accum where
  name : Option Json := none
  arguments : Option ArgState := none
  done_reason : Option (List Char) := none
  model : Option Json := none
  created : Option Json := none
  prompt_eval_count : Option Json := none
  eval_count : Option Json := none

def emptyAccum : Accum := {}

/-- The `message` field of an emitted object: `{}` for the terminal message,
`{role, content}` for delta messages. -/
structure InnerMsg where
  role : Option (List Char) := none
  content : Option Json := none

/-- One element of `parsedMessages`.  The terminal message spreads
`incompleteResult` into the same record, so the accumulator fields appear
here as options. -/
structure Msg where
  done : Bool
  message : InnerMsg
  model : Option Json := none
  created : Option Json := none
  name : Option Json := none
  arguments : Option ArgState := none
  done_reason : Option (List Char) := none
  prompt_eval_count : Option Json := none
  eval_count : Option Json := none

structure ParseResult where
  parsedMessages : List Msg
  remainBuffer : List Char

def dataMark : List Char := lchars "data: "
def doneLit : List Char := lchars "[DONE]"
def assistantLit : List Char := lchars "assistant"
def toolCallsLit : List Char := lchars "tool_calls"
def stopLit : List Char := lchars "stop"
def choicesKey : List Char := lchars "choices"
def frKey : List Char := lchars "finish_reason"
def deltaKey : List Char := lchars "delta"
def contentKey : List Char := lchars "content"
def usageKey : List Char := lchars "usage"
def modelKey : List Char := lchars "model"
def createdKey : List Char := lchars "created"
def ptKey : List Char := lchars "prompt_tokens"
def ctKey : List Char := lchars "completion_tokens"
def toolCallsKey : List Char := lchars "tool_calls"
def functionKey : List Char := lchars "function"
def nameKey : List Char := lchars "name"
def argumentsKey : List Char := lchars "arguments"

/-- JS strict equality `v === "lit"` for a possibly-undefined `v`. -/
def isStrEq : Option Json → List Char → Bool
  | some (.str s), t => s = t
  | _, _ => false

/-- Truthiness of `incompleteResult.arguments`. -/
def argTruthy : Option ArgState → Bool
  | none => false
  | some (.raw s) => !s.isEmpty
  | some (.parsed j) => jsTruthy j

def argStr : ArgState → List Char
  | .raw s => s
  | .parsed j => jsStr j

/-- `JSON.parse(incompleteResult.arguments)` at finalization.  An
already-parsed value would be string-coerced by JS before parsing (and fail
for the object case); the model maps it to failure. -/
def finalizeArgs : Option ArgState → Option Json
  | some (.raw s) => jsonParse s
  | _ => none

/-- `data === "[DONE]"` branch: `{...incompleteResult, done: true, message: {}}`. -/
def doneMsg (acc : Option Accum) : Msg :=
  let a := acc.getD {}
  { done := true
    message := {}
    model := a.model
    created := a.created
    name := a.name
    arguments := a.arguments
    done_reason := a.done_reason
    prompt_eval_count := a.prompt_eval_count
    eval_count := a.eval_count }

/-- `choice.delta.content ?? ""`. -/
def nullish : Option Json → Json
  | none => .str []
  | some .null => .str []
  | some j => j

/-- `const usage = parsed.usage; if (usage) { incompleteResult = {...incompleteResult, ...} }`. -/
def usageMerge (parsed : Json) (acc : Option Accum) : Option Accum :=
  match parsed.getF usageKey with
  | some u =>
    if jsTruthy u then
      let a := acc.getD {}
      some { a with
        done_reason := some stopLit
        model := parsed.getF modelKey
        created := parsed.getF createdKey
        prompt_eval_count := some (jsOr (u.getF ptKey) (.num 0))
        eval_count := some (jsOr (u.getF ctKey) (.num 0)) }
    else acc
  | none => acc

/-- The two `if` statements on `toolFunc`: set `incompleteResult.name` for a
truthy fragment name, then append a truthy argument fragment.  Property
writes on `undefined` throw (caught): the accumulator stays `none`. -/
def toolFuncPart (tf : Json) (acc : Option Accum) : Option Accum :=
  let nmO := tf.getF nameKey
  let afterName : Option (Option Accum) :=
    if jsTruthyOpt nmO then
      match acc with
      | none => none                       -- TypeError on `incompleteResult.name = ...`
      | some a => some (some { a with name := nmO })
    else some acc
  match afterName with
  | none => none
  | some acc1 =>
    let arO := tf.getF argumentsKey
    if jsTruthyOpt arO then
      match arO, acc1 with
      | _, none => none                    -- TypeError on `incompleteResult.arguments`
      | some ar, some a =>
        let base := if argTruthy a.arguments then argStr ((a.arguments).getD (.raw [])) else []
        some { a with arguments := some (.raw (base ++ jsStr ar)) }
      | none, _ => acc1
    else acc1

/-- `if (choice.delta.tool_calls && choice.delta.tool_calls[0]) { ... }`. -/
def toolCallsPart (d : Json) (acc : Option Accum) : Option Accum :=
  let tcO := d.getF toolCallsKey
  if jsTruthyOpt tcO then
    match tcO with
    | some tc =>
      match jsIndex0 tc with
      | some t0 =>
        if jsTruthy t0 then
          match t0.getF functionKey with
          | some tf =>
            if tf.isNull then acc          -- TypeError on `toolFunc.name`
            else toolFuncPart tf acc
          | none => acc                    -- `toolFunc` is undefined: TypeError
        else acc
      | none => acc
    | none => acc
  else acc

/-- `if (choice.delta) { ... }`: push the delta message, then the tool-call
fragment handling. -/
def deltaPart (parsed choice : Json) (acc : Option Accum) : List Msg × Option Accum :=
  match choice.getF deltaKey with
  | some d =>
    if jsTruthy d then
      let msg : Msg :=
        { done := false
          message := { role := some assistantLit, content := some (nullish (d.getF contentKey)) }
          model := parsed.getF modelKey
          created := parsed.getF createdKey }
      ([msg], toolCallsPart d acc)
    else ([], acc)
  | none => ([], acc)

/-- The `if (choice.finish_reason)` block.  The first component records that
the statement threw (`TypeError` on `undefined`, or `JSON.parse` failure at
finalization): the rest of the line\'s processing is skipped by the `catch`,
with the accumulator as it stood. -/
def finishPart (parsed choice : Json) (acc : Option Accum) : Bool × Option Accum :=
  let frO := choice.getF frKey
  if jsTruthyOpt frO then
    if isStrEq frO toolCallsLit then
      match acc with
      | none => (true, none)               -- TypeError on `incompleteResult.arguments`
      | some a =>
        if argTruthy a.arguments then
          match finalizeArgs a.arguments with
          | none => (true, some a)         -- `JSON.parse` throws: frame line dropped
          | some v =>
            (false, usageMerge parsed (some { a with arguments := some (.parsed v) }))
        else (false, usageMerge parsed (some a))
    else (false, usageMerge parsed acc)
  else (false, acc)

/-- Processing of one non-`[DONE]` `data:` payload (the body of the per-line
`try` block, lines 203-255 of `chat_client.js`). -/
def payloadStep (acc : Option Accum) (data : List Char) : List Msg × Option Accum :=
  match jsonParse data with
  | none => ([], acc)                      -- `JSON.parse(data)` throws, caught
  | some parsed =>
    if parsed.isNull then ([], acc)        -- `parsed.choices` throws on null, caught
    else
      let choicesO := parsed.getF choicesKey
      if jsTruthyOpt choicesO ∧ jsTruthyOpt (choicesO.bind jsIndex0) then
        match choicesO.bind jsIndex0 with
        | some choice =>
          let fp := finishPart parsed choice acc
          if fp.1 then ([], fp.2) else deltaPart parsed choice fp.2
        | none => ([], acc)
      else ([], acc)

/-- The `for (const line of lines)` loop of one frame.  A `[DONE]` line emits
the terminal message, resets the accumulator and `break`s out of the loop. -/
def lineLoop : Option Accum → List (List Char) → List Msg × Option Accum
  | acc, [] => ([], acc)
  | acc, l :: rest =>
    if dataMark.isPrefixOf l then
      let data := l.drop 6
      if data = doneLit then ([doneMsg acc], some {})
      else
        let s1 := payloadStep acc data
        let s2 := lineLoop s1.2 rest
        (s1.1 ++ s2.1, s2.2)
    else lineLoop acc rest

/-- One frame: `if (!respMessage || respMessage.trim() === "") continue;`
then the line loop over `respMessage.split("\n")`. -/
def frameStep (acc : Option Accum) (frame : List Char) : List Msg × Option Accum :=
  if frame.all isWSb then ([], acc) else lineLoop acc (splitLF frame)

/-- The `for (const respMessage of respMessages)` loop. -/
def framesLoop : Option Accum → List (List Char) → List Msg × Option Accum
  | acc, [] => ([], acc)
  | acc, f :: fs =>
    let s1 := frameStep acc f
    let s2 := framesLoop s1.2 fs
    (s1.1 ++ s2.1, s2.2)

/-- The Chunk Reassembler step inside `parseToOllamaResp`:
`respMessages = buffer.split("\n\n"); remainBuffer = respMessages.pop()`. -/
def reassemble (buffer : List Char) : List (List Char) × List Char :=
  ((splitNN buffer).dropLast, (splitNN buffer).getLastD [])

/-- `CopilotChatClient#parseToOllamaResp(buffer, incompleteResult)`. -/
def parseToOllamaResp (buffer : List Char) (incompleteResult : Option Accum) : ParseResult :=
  let r := reassemble buffer
  ⟨(framesLoop incompleteResult r.1).1, r.2⟩

/-! ## The streaming driver (`sendHttpStreamingRequest`, `http_utils.js`)

The `res.on("data")` handler appends the chunk to `buffer`, calls
`parseResp(buffer)` — with a single argument, so `parseToOllamaResp` receives
`incompleteResult = undefined` (`none`) on every invocation — emits
`parsed.parsedMessages` to the sink and keeps `parsed.remainBuffer` as the new
buffer.  The `res.on("end")` handler calls `parseResp(buffer)` once more and
emits its messages before resolving. -/

def streamRunAux : List Msg → List Char → List (List Char) → List Msg × List Char
  | out, buf, [] => (out, buf)
  | out, buf, ch :: rest =>
    let r := parseToOllamaResp (buf ++ ch) none
    streamRunAux (out ++ r.parsedMessages) r.remainBuffer rest

/-- All `res.on("data")` invocations for the given chunk arrival pattern:
emitted messages so far and the retained buffer. -/
def streamRun (chunks : List (List Char)) : List Msg × List Char :=
  streamRunAux [] [] chunks

/-- The whole stream: data handlers followed by the `res.on("end")` handler. -/
def streamMessages (chunks : List (List Char)) : List Msg :=
  let r := streamRun chunks
  r.1 ++ (parseToOllamaResp r.2 none).parsedMessages

/-- The reassembly layer of the driver loop in isolation: feed each chunk
appended to the carried remainder through the `split`/`pop` step, collecting
completed frames. -/
def feedFramesAux : List (List Char) → List Char → List (List Char) → List (List Char) × List Char
  | fs, buf, [] => (fs, buf)
  | fs, buf, ch :: rest =>
    let r := reassemble (buf ++ ch)
    feedFramesAux (fs ++ r.1) r.2 rest

def feedFrames (chunks : List (List Char)) : List (List Char) × List Char :=
  feedFramesAux [] [] chunks

/-! ## Credential lifecycle (`auth_client.js` and `sendHttpRequest`)

`sendHttpRequest` is modelled as a pure function of the response the remote
endpoint returns for the exchange; the two token files are the mutable state
of `CopilotAuth`. -/

structure HttpResponse where
  statusCode : Nat
  body : List Char

inductive ReqError where
  | status (code : Nat) (body : List Char)   -- `Returned status code: ...` rejection
  | respProc                                 -- `Failed to parse response` rejection

/-- `sendHttpRequest` with no callback: on 200 resolve
`{success: true, data: JSON.parse(data)}`, otherwise reject. -/
def sendHttpRequest (resp : HttpResponse) : Except ReqError Json :=
  if resp.statusCode = 200 then
    match jsonParse resp.body with
    | some j => .ok j
    | none => .error .respProc
  else .error (.status resp.statusCode resp.body)

inductive AuthError where
  | authIncomplete                           -- apps.json missing
  | oauthParse                               -- apps.json unreadable as JSON
  | oauthNotFound                            -- no `github.com:*` oauth_token entry
  | request (e : ReqError)                   -- the token exchange rejected
  | fetchFailed                              -- exchange resolved with falsy data

/-- On-disk state of the credential store: raw `apps.json` content and the
stored `github-token.json` value. -/
structure AuthState where
  oauthFile : Option (List Char)
  githubTokenFile : Option Json

def githubComMark : List Char := lchars "github.com:"
def oauthTokenKey : List Char := lchars "oauth_token"

/-- The `for (const key in oauthData)` loop: first key starting with
`github.com:` whose `oauth_token` is truthy. -/
def findOauthToken : List (List Char × Json) → Option Json
  | [] => none
  | (k, v) :: rest =>
    if githubComMark.isPrefixOf k ∧ jsTruthyOpt (v.getF oauthTokenKey) then
      v.getF oauthTokenKey
    else findOauthToken rest

/-- `CopilotAuth#fetchAndStoreGitHubToken`, with the exchange outcome given by
`exchangeResp`.  Returns the new store state and the outcome; every thrown
error leaves the store untouched. -/
def fetchAndStoreGitHubToken (st : AuthState) (exchangeResp : HttpResponse) :
    AuthState × Except AuthError Unit :=
  match st.oauthFile with
  | none => (st, .error .authIncomplete)
  | some raw =>
    match jsonParse raw with
    | none => (st, .error .oauthParse)
    | some oauthData =>
      match oauthData with
      | .obj fs =>
        match findOauthToken fs with
        | none => (st, .error .oauthNotFound)
        | some _ =>
          match sendHttpRequest exchangeResp with
          | .error e => (st, .error (.request e))
          | .ok respData =>
            -- `tokenData = {success: true, data: respData}; if (tokenData.data) write`
            if jsTruthy respData then
              ({ st with githubTokenFile := some respData }, .ok ())
            else (st, .error .fetchFailed)
      | _ => (st, .error .oauthNotFound)

/-- `CopilotAuth#checkTokenExpired`: `expires_at` is seconds since the epoch,
`nowMs` milliseconds; a falsy (absent or zero) `expires_at` means "no
expiration date". -/
def checkTokenExpired (expires_at : Option Int) (nowMs : Int) : Bool :=
  match expires_at with
  | some e => if e ≠ 0 then decide (e * 1000 < nowMs) else false
  | none => false

/-- `checkStatus().tokenValid` as a function of the stored expiry and the
current time. -/
def tokenValidOf (expires_at : Option Int) (nowMs : Int) : Bool :=
  !checkTokenExpired expires_at nowMs

structure AuthStatus where
  authenticated : Bool
  tokenValid : Bool

inductive AuthAction where
  | interactiveAuth                          -- `#signInGithHub()` (device-code flow)
  | tokenExchange                            -- `#fetchAndStoreGitHubToken()`
  deriving DecidableEq

/-- `CopilotAuth.signIn(force)`: decision structure of lines 81-101.  `status`
is the first `checkStatus()` result, `post` the final one (the effects of the
two collaborator calls are abstracted into it); the returned list records
which collaborator flows run, in order. -/
def signIn (status post : AuthStatus) (force : Bool) : Bool × List AuthAction :=
  if status.authenticated ∧ status.tokenValid ∧ ¬force then (true, [])
  else
    ((post.authenticated ∧ post.tokenValid : Bool),
      (if ¬status.authenticated then [AuthAction.interactiveAuth] else []) ++
      (if ¬status.tokenValid ∨ force then [AuthAction.tokenExchange] else []))

/-! ## Properties of the framing layer -/

theorem splitNN_ne_nil (l : List Char) : splitNN l ≠ [] := by
  induction l using splitNN.induct with
  | case1 => simp [splitNN]
  | case2 c => simp [splitNN]
  | case3 c d rest h ih => simp [splitNN, h]
  | case4 c d rest h ih =>
    simp only [splitNN, if_neg h]
    cases hs : splitNN (d :: rest) with
    | nil => exact absurd hs ih
    | cons a t => simp [List.modifyHead]

theorem getLastD_irrel {α : Type} (x : α) (t : List α) (a b : α) :
    (x :: t).getLastD a = (x :: t).getLastD b := rfl

theorem splitNN_eq_singleton {l s : List Char} (h : splitNN l = [s]) : s = l := by
  induction l using splitNN.induct generalizing s with
  | case1 => simp [splitNN] at h; exact h
  | case2 c => simp [splitNN] at h; exact h.symm
  | case3 c d rest hcd ih =>
    obtain ⟨hc, hd⟩ := hcd; subst hc; subst hd
    simp only [splitNN, if_pos (And.intro rfl rfl)] at h
    exact absurd (List.cons_eq_cons.mp h).2 (splitNN_ne_nil rest)
  | case4 c d rest hcd ih =>
    simp only [splitNN, if_neg hcd] at h
    cases hs : splitNN (d :: rest) with
    | nil => exact absurd hs (splitNN_ne_nil _)
    | cons a t =>
      rw [hs] at h
      simp only [List.modifyHead] at h
      obtain ⟨h1, h2⟩ := List.cons_eq_cons.mp h
      subst h2
      rw [← h1, ih hs]

theorem splitNN_append (x y : List Char) :
    splitNN (x ++ y) =
      (splitNN x).dropLast ++ splitNN ((splitNN x).getLastD [] ++ y) := by
  induction x using splitNN.induct generalizing y with
  | case1 => simp [splitNN]
  | case2 c => simp [splitNN]
  | case3 c d rest hcd ih =>
    obtain ⟨hc, hd⟩ := hcd; subst hc; subst hd
    have hLHS : splitNN (('\n' :: '\n' :: rest) ++ y) = [] :: splitNN (rest ++ y) := by
      simp [splitNN]
    have hx : splitNN ('\n' :: '\n' :: rest) = [] :: splitNN rest := by
      simp [splitNN]
    rw [hLHS, hx]
    cases hs : splitNN rest with
    | nil => exact absurd hs (splitNN_ne_nil rest)
    | cons a t =>
      rw [ih y, hs]
      simp [List.getLastD]
  | case4 c d rest hcd ih =>
    have hLHS : splitNN ((c :: d :: rest) ++ y) =
        (splitNN ((d :: rest) ++ y)).modifyHead (c :: ·) := by
      simp only [List.cons_append]
      rw [splitNN]
      simp [if_neg hcd]
    have hx : splitNN (c :: d :: rest) = (splitNN (d :: rest)).modifyHead (c :: ·) := by
      rw [splitNN]
      simp [if_neg hcd]
    cases hs : splitNN (d :: rest) with
    | nil => exact absurd hs (splitNN_ne_nil _)
    | cons a t =>
      cases t with
      | nil =>
        have ha : a = d :: rest := splitNN_eq_singleton hs
        rw [hx, hs, ha]
        rfl
      | cons b t2 =>
        rw [hLHS, hx, hs, ih y, hs]
        rfl

theorem intercalate_cons₂ (u v : List Char) (w : List (List Char)) :
    List.intercalate sepNN (u :: v :: w) = u ++ (sepNN ++ List.intercalate sepNN (v :: w)) := by
  simp [List.intercalate, List.intersperse, List.append_assoc]

theorem intercalate_single (u : List Char) : List.intercalate sepNN [u] = u := by
  simp [List.intercalate, List.intersperse]

theorem splitNN_intercalate (l : List Char) :
    List.intercalate sepNN (splitNN l) = l := by
  induction l using splitNN.induct with
  | case1 => simp [splitNN, intercalate_single]
  | case2 c => simp [splitNN, intercalate_single]
  | case3 c d rest hcd ih =>
    obtain ⟨hc, hd⟩ := hcd; subst hc; subst hd
    have hx : splitNN ('\n' :: '\n' :: rest) = [] :: splitNN rest := by simp [splitNN]
    rw [hx]
    cases hs : splitNN rest with
    | nil => exact absurd hs (splitNN_ne_nil rest)
    | cons a t =>
      rw [hs] at ih
      rw [intercalate_cons₂, ih]
      rfl
  | case4 c d rest hcd ih =>
    have hx : splitNN (c :: d :: rest) = (splitNN (d :: rest)).modifyHead (c :: ·) := by
      rw [splitNN]; simp [if_neg hcd]
    rw [hx]
    cases hs : splitNN (d :: rest) with
    | nil => exact absurd hs (splitNN_ne_nil _)
    | cons a t =>
      rw [hs] at ih
      cases t with
      | nil =>
        rw [intercalate_single] at ih
        simp only [List.modifyHead]
        rw [intercalate_single, ih]
      | cons b t2 =>
        rw [intercalate_cons₂] at ih
        simp only [List.modifyHead]
        rw [intercalate_cons₂, List.cons_append, ih]

theorem sep_infix_cons {c : Char} {t : List Char} (h : sepNN <:+: c :: t) :
    sepNN <+: c :: t ∨ sepNN <:+: t := by
  obtain ⟨s, u, hsu⟩ := h
  cases s with
  | nil => exact Or.inl ⟨u, by simpa using hsu⟩
  | cons e s' =>
    right
    have ht : s' ++ sepNN ++ u = t := by
      have := hsu
      simp only [List.cons_append, List.append_assoc] at this ⊢
      exact (List.cons_eq_cons.mp this).2
    exact ⟨s', u, by simpa [List.append_assoc] using ht⟩

theorem splitNN_of_no_sep {l : List Char} (h : ¬ sepNN <:+: l) : splitNN l = [l] := by
  induction l using splitNN.induct with
  | case1 => simp [splitNN]
  | case2 c => simp [splitNN]
  | case3 c d rest hcd ih =>
    obtain ⟨hc, hd⟩ := hcd; subst hc; subst hd
    exact absurd ⟨[], rest, rfl⟩ h
  | case4 c d rest hcd ih =>
    have hrest : ¬ sepNN <:+: d :: rest := by
      intro hin
      exact h (hin.trans (List.suffix_cons c (d :: rest)).isInfix)
    rw [splitNN]
    simp only [if_neg hcd, ih hrest, List.modifyHead]

theorem splitNN_getLastD_no_sep (l : List Char) :
    ¬ sepNN <:+: (splitNN l).getLastD [] := by
  induction l using splitNN.induct with
  | case1 =>
    simp only [splitNN, List.getLastD]
    intro hin
    simp [sepNN] at hin
  | case2 c =>
    simp only [splitNN, List.getLastD]
    intro hin
    have := hin.length_le
    simp [sepNN] at this
  | case3 c d rest hcd ih =>
    obtain ⟨hc, hd⟩ := hcd; subst hc; subst hd
    have hx : splitNN ('\n' :: '\n' :: rest) = [] :: splitNN rest := by simp [splitNN]
    rw [hx]
    cases hs : splitNN rest with
    | nil => exact absurd hs (splitNN_ne_nil rest)
    | cons a t =>
      rw [hs] at ih
      simpa [List.getLastD] using ih
  | case4 c d rest hcd ih =>
    have hx : splitNN (c :: d :: rest) = (splitNN (d :: rest)).modifyHead (c :: ·) := by
      rw [splitNN]; simp [if_neg hcd]
    rw [hx]
    cases hs : splitNN (d :: rest) with
    | nil => exact absurd hs (splitNN_ne_nil _)
    | cons a t =>
      rw [hs] at ih
      cases t with
      | nil =>
        have ha : a = d :: rest := splitNN_eq_singleton hs
        simp only [List.modifyHead, List.getLastD] at ih ⊢
        subst ha
        intro hin
        rcases sep_infix_cons hin with hp | hi
        · obtain ⟨u, hu⟩ := hp
          simp only [sepNN] at hu
          exact hcd ⟨(List.cons_eq_cons.mp hu).1.symm,
            (List.cons_eq_cons.mp (List.cons_eq_cons.mp hu).2).1.symm⟩
        · exact ih hi
      | cons b t2 =>
        simpa [List.modifyHead, List.getLastD] using ih

theorem reassemble_no_sep_remain (buffer : List Char) :
    ¬ sepNN <:+: (reassemble buffer).2 :=
  splitNN_getLastD_no_sep buffer

theorem reassemble_of_no_sep {buffer : List Char} (h : ¬ sepNN <:+: buffer) :
    reassemble buffer = ([], buffer) := by
  simp [reassemble, splitNN_of_no_sep h]

theorem getLastD_append_ne {α : Type} (A : List α) {B : List α} (h : B ≠ []) :
    ∀ d, (A ++ B).getLastD d = B.getLastD d := by
  induction A with
  | nil => intro d; rfl
  | cons a A ih =>
    intro d
    rw [List.cons_append, List.getLastD_cons, ih a]
    cases B with
    | nil => exact absurd rfl h
    | cons b bt => rw [List.getLastD_cons, List.getLastD_cons]

/-- The driver invariant in one step: splitting `buf ++ ch` continues exactly
where splitting `buf` left off. -/
theorem reassemble_append (buf ch : List Char) :
    (reassemble (buf ++ ch)).1 =
      (reassemble buf).1 ++ (reassemble ((reassemble buf).2 ++ ch)).1 ∧
    (reassemble (buf ++ ch)).2 = (reassemble ((reassemble buf).2 ++ ch)).2 := by
  have h := splitNN_append buf ch
  constructor
  · show (splitNN (buf ++ ch)).dropLast = _
    rw [h]
    rw [List.dropLast_append_of_ne_nil _ (splitNN_ne_nil _)]
    rfl
  · show (splitNN (buf ++ ch)).getLastD [] = _
    rw [h]
    rw [getLastD_append_ne _ (splitNN_ne_nil _)]
    rfl

theorem sep_not_infix_nil : ¬ sepNN <:+: ([] : List Char) := by
  intro h
  have := h.length_le
  simp [sepNN] at this

theorem feedFramesAux_eq (chunks : List (List Char)) :
    ∀ (fs : List (List Char)) (buf : List Char), ¬ sepNN <:+: buf →
      feedFramesAux fs buf chunks =
        (fs ++ (reassemble (buf ++ chunks.flatten)).1, (reassemble (buf ++ chunks.flatten)).2) := by
  induction chunks with
  | nil =>
    intro fs buf h
    simp [feedFramesAux, reassemble_of_no_sep h]
  | cons ch rest ih =>
    intro fs buf _
    show feedFramesAux (fs ++ (reassemble (buf ++ ch)).1) (reassemble (buf ++ ch)).2 rest = _
    rw [ih _ _ (reassemble_no_sep_remain _)]
    obtain ⟨hA, hB⟩ := reassemble_append (buf ++ ch) rest.flatten
    simp only [List.flatten_cons, ← List.append_assoc, hA, hB, Prod.mk.injEq]

/-- C1 (amended): for every partition of a raw stream into chunks, feeding the
chunks through the reassembly step (`split("\n\n")`/`pop`) of
`parseToOllamaResp` while carrying the returned `remainBuffer` into the next
call yields exactly the ordered frame sequence (and final remainder) of
feeding the concatenated stream as one chunk.  (The parsed-message sequence is
not preserved, because `incompleteResult` is not carried between invocations;
see the counterexample.) -/
theorem c1_frames_split_invariance (chunks : List (List Char)) :
    feedFrames chunks = reassemble chunks.flatten ∧
    (streamRun chunks).2 = (reassemble chunks.flatten).2 := by
  have hmain : feedFrames chunks = reassemble chunks.flatten := by
    unfold feedFrames
    rw [feedFramesAux_eq chunks [] [] sep_not_infix_nil]
    simp
  refine ⟨hmain, ?_⟩
  have haux : ∀ (chs : List (List Char)) (out : List Msg) (fs : List (List Char))
      (buf : List Char), (streamRunAux out buf chs).2 = (feedFramesAux fs buf chs).2 := by
    intro chs
    induction chs with
    | nil => intro out fs buf; rfl
    | cons ch rest ih => intro out fs buf; exact ih _ _ _
  calc (streamRun chunks).2 = (feedFrames chunks).2 := haux chunks [] [] []
    _ = (reassemble chunks.flatten).2 := by rw [hmain]

def c1frameA : List Char :=
  lchars "data: \x7b\"choices\":[\x7b\"finish_reason\":\"stop\"\x7d],\"usage\":\x7b\"prompt_tokens\":1,\"completion_tokens\":2\x7d,\"model\":\"m\",\"created\":3\x7d\n\n"

def c1frameB : List Char := lchars "data: [DONE]\n\n"

set_option maxRecDepth 100000 in
/-- C1 counterexample: the two-chunk partition of a well-formed two-frame
stream (usage-bearing finish frame, then the `[DONE]` frame) produces a
different parsed-message sequence than the single-chunk feed: the driver calls
`parseResp(buffer)` without the accumulator, so the usage merged in the first
call is absent from the terminal message of the second. -/
theorem c1_counterexample :
    [c1frameA, c1frameB].flatten = c1frameA ++ c1frameB ∧
    streamMessages [c1frameA, c1frameB] ≠ streamMessages [c1frameA ++ c1frameB] := by
  refine ⟨by simp, fun h => ?_⟩
  have h2 := congrArg (List.map (fun m => m.model.isSome)) h
  rw [show (streamMessages [c1frameA, c1frameB]).map (fun m => m.model.isSome)
        = [false] from rfl,
      show (streamMessages [c1frameA ++ c1frameB]).map (fun m => m.model.isSome)
        = [true] from rfl] at h2
  simp at h2

/-! ## Properties of the Delta Normalizer -/

theorem framesLoop_append (xs ys : List (List Char)) (acc : Option Accum) :
    framesLoop acc (xs ++ ys) =
      ((framesLoop acc xs).1 ++ (framesLoop (framesLoop acc xs).2 ys).1,
       (framesLoop (framesLoop acc xs).2 ys).2) := by
  induction xs generalizing acc with
  | nil => simp [framesLoop]
  | cons f fs ih =>
    simp only [List.cons_append, framesLoop, List.append_eq]
    rw [ih]
    simp [List.append_assoc]

theorem deltaPart_done (p c : Json) (a : Option Accum) :
    ∀ m ∈ (deltaPart p c a).1, m.done = false := by
  intro m hm
  unfold deltaPart at hm
  repeat' split at hm
  all_goals simp_all

theorem payloadStep_done (acc : Option Accum) (data : List Char) :
    ∀ m ∈ (payloadStep acc data).1, m.done = false := by
  intro m hm
  unfold payloadStep at hm
  split at hm
  · simp at hm
  · split at hm
    · simp at hm
    · simp only [] at hm
      split at hm
      · split at hm
        · split at hm
          · simp at hm
          · exact deltaPart_done _ _ _ m hm
        · simp at hm
      · simp at hm

/-- A frame segment containing no `data: [DONE]` line. -/
def noDoneLine (f : List Char) : Prop :=
  ∀ l ∈ splitLF f, ¬(dataMark.isPrefixOf l ∧ l.drop 6 = doneLit)

instance (f : List Char) : Decidable (noDoneLine f) := by
  unfold noDoneLine
  infer_instance

theorem lineLoop_done (lines : List (List Char)) (acc : Option Accum)
    (h : ∀ l ∈ lines, ¬(dataMark.isPrefixOf l ∧ l.drop 6 = doneLit)) :
    ∀ m ∈ (lineLoop acc lines).1, m.done = false := by
  induction lines generalizing acc with
  | nil => intro m hm; simp [lineLoop] at hm
  | cons l rest ih =>
    intro m hm
    unfold lineLoop at hm
    by_cases hp : dataMark.isPrefixOf l
    · rw [if_pos hp] at hm
      by_cases hd : l.drop 6 = doneLit
      · exact absurd ⟨hp, hd⟩ (h l (by simp))
      · rw [if_neg hd] at hm
        simp only [] at hm
        simp only [List.mem_append] at hm
        rcases hm with hm | hm
        · exact payloadStep_done _ _ m hm
        · exact ih _ (fun l2 hl2 => h l2 (by simp [hl2])) m hm
    · rw [if_neg hp] at hm
      exact ih _ (fun l2 hl2 => h l2 (by simp [hl2])) m hm

theorem frameStep_done (f : List Char) (acc : Option Accum) (h : noDoneLine f) :
    ∀ m ∈ (frameStep acc f).1, m.done = false := by
  intro m hm
  unfold frameStep at hm
  split at hm
  · simp at hm
  · exact lineLoop_done _ _ h m hm

theorem framesLoop_done (fs : List (List Char)) (acc : Option Accum)
    (h : ∀ f ∈ fs, noDoneLine f) :
    ∀ m ∈ (framesLoop acc fs).1, m.done = false := by
  induction fs generalizing acc with
  | nil => intro m hm; simp [framesLoop] at hm
  | cons f fs ih =>
    intro m hm
    unfold framesLoop at hm
    simp only [] at hm
    simp only [List.mem_append] at hm
    rcases hm with hm | hm
    · exact frameStep_done f acc (h f (by simp)) m hm
    · exact ih _ (fun f2 hf2 => h f2 (by simp [hf2])) m hm

def doneFrameText : List Char := lchars "data: [DONE]"

theorem frameStep_doneFrame (acc : Option Accum) :
    frameStep acc doneFrameText = ([doneMsg acc], some emptyAccum) := rfl

/-- C3: for a stream whose frames end with the `[DONE]` sentinel (no earlier
frame carries the sentinel), the normalizer loop emits all earlier messages
with `done = false`, then exactly one terminal message: it is last, it is
built by spreading the accumulator collected so far, its `message` field is
the empty object (no content delta), and the accumulator is reset to the
empty object afterwards. -/
theorem c3_terminal_message (fs : List (List Char)) (acc : Option Accum)
    (h : ∀ f ∈ fs, noDoneLine f) :
    framesLoop acc (fs ++ [doneFrameText]) =
      ((framesLoop acc fs).1 ++ [doneMsg (framesLoop acc fs).2], some emptyAccum) ∧
    (doneMsg (framesLoop acc fs).2).done = true ∧
    (doneMsg (framesLoop acc fs).2).message = {} ∧
    ∀ m ∈ (framesLoop acc fs).1, m.done = false := by
  refine ⟨?_, rfl, rfl, framesLoop_done fs acc h⟩
  rw [framesLoop_append]
  rw [show ∀ a, framesLoop a [doneFrameText] = ([doneMsg a], some emptyAccum) from
    fun a => by simp [framesLoop, frameStep_doneFrame]]

theorem dropLast_append_getLastD {α : Type} (L : List α) (h : L ≠ []) :
    ∀ d, L.dropLast ++ [L.getLastD d] = L := by
  induction L with
  | nil => exact absurd rfl h
  | cons a t ih =>
    intro d
    cases t with
    | nil => rfl
    | cons b t2 =>
      rw [List.dropLast_cons₂, List.getLastD_cons, List.cons_append, ih (by simp) a]

/-- C5: the reassembly step never emits a frame before its closing `"\n\n"`:
the returned `remainBuffer` is the trailing segment after the last delimiter
(never itself containing one), the emitted frames followed by the remainder
reconstruct the buffer with one delimiter after each frame, and a buffer
containing no delimiter yields zero messages with the buffer retained
unchanged. -/
theorem c5_delimiter_bounded (buffer : List Char) (acc : Option Accum) :
    (parseToOllamaResp buffer acc).remainBuffer = (splitNN buffer).getLastD [] ∧
    List.intercalate sepNN
      ((reassemble buffer).1 ++ [(parseToOllamaResp buffer acc).remainBuffer]) = buffer ∧
    ¬ sepNN <:+: (parseToOllamaResp buffer acc).remainBuffer ∧
    (¬ sepNN <:+: buffer →
      (parseToOllamaResp buffer acc).parsedMessages = [] ∧
      (parseToOllamaResp buffer acc).remainBuffer = buffer) := by
  refine ⟨rfl, ?_, splitNN_getLastD_no_sep buffer, fun h => ?_⟩
  · show List.intercalate sepNN
      ((splitNN buffer).dropLast ++ [(splitNN buffer).getLastD []]) = buffer
    rw [dropLast_append_getLastD _ (splitNN_ne_nil buffer) [], splitNN_intercalate]
  · unfold parseToOllamaResp
    rw [reassemble_of_no_sep h]
    exact ⟨rfl, rfl⟩

/-- Witness for C5 on a delimiter-free buffer holding a complete `data:` line. -/
theorem c5_witness :
    ¬ sepNN <:+: lchars "data: x" ∧
    (parseToOllamaResp (lchars "data: x") none).parsedMessages = [] ∧
    (parseToOllamaResp (lchars "data: x") none).remainBuffer = lchars "data: x" :=
  ⟨by decide, (c5_delimiter_bounded (lchars "data: x") none).2.2.2 (by decide)⟩

/-- A frame the per-line error handling drops entirely: empty or
whitespace-only, or with no `data:` line at all, or with every `data:` payload
failing to decode (and none equal to the sentinel). -/
def droppedFrame (f : List Char) : Prop :=
  f.all isWSb = true ∨
  ∀ l ∈ splitLF f, dataMark.isPrefixOf l = true →
    l.drop 6 ≠ doneLit ∧ (jsonParse (l.drop 6)).isNone = true

instance (f : List Char) : Decidable (droppedFrame f) := by
  unfold droppedFrame
  infer_instance

theorem payloadStep_of_parse_fail (acc : Option Accum) (data : List Char)
    (h : (jsonParse data).isNone = true) : payloadStep acc data = ([], acc) := by
  unfold payloadStep
  rw [Option.isNone_iff_eq_none.mp h]

theorem lineLoop_dropped (lines : List (List Char)) (acc : Option Accum)
    (h : ∀ l ∈ lines, dataMark.isPrefixOf l = true →
      l.drop 6 ≠ doneLit ∧ (jsonParse (l.drop 6)).isNone = true) :
    lineLoop acc lines = ([], acc) := by
  induction lines generalizing acc with
  | nil => rfl
  | cons l rest ih =>
    unfold lineLoop
    by_cases hp : dataMark.isPrefixOf l
    · obtain ⟨hnd, hparse⟩ := h l (by simp) hp
      rw [if_pos hp, if_neg hnd, payloadStep_of_parse_fail acc _ hparse]
      simp [ih acc (fun l2 hl2 => h l2 (by simp [hl2]))]
    · rw [if_neg hp]
      exact ih acc (fun l2 hl2 => h l2 (by simp [hl2]))

theorem frameStep_dropped (f : List Char) (acc : Option Accum) (h : droppedFrame f) :
    frameStep acc f = ([], acc) := by
  unfold frameStep
  rcases h with h | h
  · rw [if_pos h]
  · split
    · rfl
    · exact lineLoop_dropped _ acc (fun l hl => h l hl)

theorem framesLoop_cons_dropped (f : List Char) (fs : List (List Char))
    (acc : Option Accum) (h : droppedFrame f) :
    framesLoop acc (f :: fs) = framesLoop acc fs := by
  show ((frameStep acc f).1 ++ (framesLoop (frameStep acc f).2 fs).1,
        (framesLoop (frameStep acc f).2 fs).2) = framesLoop acc fs
  rw [frameStep_dropped f acc h]
  simp

/-- C6: a frame whose `data:` payloads all fail to decode (or that is empty,
whitespace-only, or has no `data:` line) is dropped without touching the
accumulator: the messages and final state for the surrounding frames are
identical to those produced if the frame were absent. -/
theorem c6_malformed_frame_dropped (fs1 fs2 : List (List Char)) (f : List Char)
    (acc : Option Accum) (h : droppedFrame f) :
    framesLoop acc (fs1 ++ f :: fs2) = framesLoop acc (fs1 ++ fs2) := by
  rw [framesLoop_append fs1 (f :: fs2), framesLoop_append fs1 fs2,
    framesLoop_cons_dropped f fs2 _ h]

def c6good1 : List Char := lchars "data: \x7b\"choices\":[\x7b\"delta\":\x7b\"content\":\"Hi\"\x7d\x7d]\x7d"
def c6bad : List Char := lchars "data: \x7boops"
def c6good2 : List Char := lchars "data: \x7b\"choices\":[\x7b\"delta\":\x7b\"content\":\" there\"\x7d\x7d]\x7d"

/-- Witness for C6: a malformed frame between two well-formed delta frames. -/
theorem c6_witness :
    droppedFrame c6bad ∧
    framesLoop none ([c6good1] ++ c6bad :: [c6good2]) =
      framesLoop none ([c6good1] ++ [c6good2]) :=
  ⟨by decide, c6_malformed_frame_dropped [c6good1] [c6good2] c6bad none (by decide)⟩

theorem parse_no_msgs_of_no_sep (buffer : List Char) (acc : Option Accum)
    (h : ¬ sepNN <:+: buffer) : (parseToOllamaResp buffer acc).parsedMessages = [] := by
  unfold parseToOllamaResp
  rw [reassemble_of_no_sep h]
  rfl

theorem streamRunAux_no_sep (chunks : List (List Char)) :
    ∀ (out : List Msg) (buf : List Char), ¬ sepNN <:+: buf →
      ¬ sepNN <:+: (streamRunAux out buf chunks).2 := by
  induction chunks with
  | nil => intro out buf h; exact h
  | cons ch rest ih =>
    intro out buf _
    exact ih _ _ (reassemble_no_sep_remain (buf ++ ch))

/-- C4 (amended): on transport-level stream end the handler re-invokes the
parser on the retained buffer (with no accumulator), but the retained buffer
is always the segment after the last delimiter, so the end call emits no
messages: completion adds nothing to what the data handlers delivered, and an
unterminated trailing segment is discarded rather than flushed as a final
frame. -/
theorem c4_end_emits_nothing (chunks : List (List Char)) :
    streamMessages chunks = (streamRun chunks).1 := by
  show (streamRun chunks).1 ++ (parseToOllamaResp (streamRun chunks).2 none).parsedMessages
      = (streamRun chunks).1
  unfold streamRun
  rw [parse_no_msgs_of_no_sep _ none (streamRunAux_no_sep chunks [] [] sep_not_infix_nil)]
  simp

def c4chunk : List Char :=
  lchars "data: \x7b\"choices\":[\x7b\"delta\":\x7b\"content\":\"Hi\"\x7d\x7d]\x7d\n\ndata: \x7b\"choices\":[\x7b\"delta\":\x7b\"content\":\"tail\"\x7d\x7d]\x7d"

set_option maxRecDepth 100000 in
/-- C4 counterexample: at stream end the remaining buffer is non-empty and its
content is a complete well-formed `data:` line (appending the delimiter would
make it produce one message), yet the end handler's parse call emits zero
messages for it: the unterminated trailing segment is not treated as a final
frame. -/
theorem c4_counterexample :
    (streamRun [c4chunk]).2 ≠ [] ∧
    ((parseToOllamaResp ((streamRun [c4chunk]).2 ++ sepNN) none).parsedMessages).length = 1 ∧
    (parseToOllamaResp (streamRun [c4chunk]).2 none).parsedMessages = [] :=
  ⟨by decide, rfl, rfl⟩

/-- C7 (amended): when a payload carries finish reason `"tool_calls"` and the
accumulated argument string fails to parse, the failure is caught by the same
per-line handler as any malformed frame: the whole line is dropped (its usage
merge and delta are skipped), the accumulator is left unchanged, no message
and no error value is produced, and processing continues with the next line. -/
theorem c7_finalize_failure_drops_frame (a : Accum) (s data : List Char)
    (p ch : Json)
    (hp : jsonParse data = some p)
    (hc : jsTruthyOpt (p.getF choicesKey) = true)
    (hidx : (p.getF choicesKey).bind jsIndex0 = some ch)
    (hcht : jsTruthy ch = true)
    (hfr : ch.getF frKey = some (.str toolCallsLit))
    (hargs : a.arguments = some (.raw s)) (hs : s ≠ [])
    (hbad : jsonParse s = none) :
    payloadStep (some a) data = ([], some a) := by
  have hnn : p.isNull = false := by
    cases p <;> simp [Json.getF, Json.isNull, jsTruthyOpt, jsTruthy] at hc ⊢
  have hft : finishPart p ch (some a) = (true, some a) := by
    have h1 : jsTruthyOpt (some (Json.str toolCallsLit)) = true := by decide
    have h2 : isStrEq (some (Json.str toolCallsLit)) toolCallsLit = true := by decide
    unfold finishPart
    rw [hfr, if_pos h1, if_pos h2]
    simp [hargs, argTruthy, finalizeArgs, hbad, List.isEmpty_iff, hs]
  unfold payloadStep
  rw [hp]
  simp only [hnn, Bool.false_eq_true, if_false]
  have hcond : jsTruthyOpt (p.getF choicesKey) = true ∧
      jsTruthyOpt ((p.getF choicesKey).bind jsIndex0) = true := by
    refine ⟨hc, ?_⟩
    rw [hidx]
    simpa [jsTruthyOpt] using hcht
  rw [if_pos hcond, hidx]
  simp only [hft]
  simp

def c7acc : Accum := { arguments := some (.raw (lchars "notjson")) }

def c7finishFrame : List Char :=
  lchars "data: \x7b\"choices\":[\x7b\"finish_reason\":\"tool_calls\"\x7d],\"usage\":\x7b\"prompt_tokens\":1,\"completion_tokens\":2\x7d\x7d"

set_option maxRecDepth 100000 in
/-- C7 counterexample: with an accumulator whose argument string does not
parse, a stream holding the `tool_calls` finish frame (with usage) and then
`[DONE]` produces exactly the output of the stream without the finish frame —
the failure is treated as a dropped frame (usage discarded, no error carried
into the terminal message, which just spreads the stale accumulator), not as
a hard per-request error. -/
theorem c7_counterexample :
    parseToOllamaResp (c7finishFrame ++ sepNN ++ doneFrameText ++ sepNN) (some c7acc) =
      parseToOllamaResp (doneFrameText ++ sepNN) (some c7acc) ∧
    (parseToOllamaResp (c7finishFrame ++ sepNN ++ doneFrameText ++ sepNN)
        (some c7acc)).parsedMessages = [doneMsg (some c7acc)] := by
  constructor
  · show ParseResult.mk [doneMsg (some c7acc)] [] = ParseResult.mk [doneMsg (some c7acc)] []
    rfl
  · rfl

def c7payloadJson : Json :=
  .obj [(choicesKey, .arr [.obj [(frKey, .str toolCallsLit)]]),
        (usageKey, .obj [(ptKey, .num 1), (ctKey, .num 2)])]

set_option maxRecDepth 100000 in
/-- Witness for C7 (amended) at the concrete finish frame and accumulator. -/
theorem c7_finalize_failure_drops_frame_witness :
    jsonParse (lchars "notjson") = none ∧
    jsonParse (c7finishFrame.drop 6) = some c7payloadJson ∧
    payloadStep (some c7acc) (c7finishFrame.drop 6) = ([], some c7acc) :=
  ⟨rfl, rfl,
    c7_finalize_failure_drops_frame c7acc (lchars "notjson") (c7finishFrame.drop 6)
      c7payloadJson (.obj [(frKey, .str toolCallsLit)])
      rfl rfl rfl rfl rfl rfl (by decide) rfl⟩

/-- The delta message `parseToOllamaResp` pushes for `choice.delta = d` in the
payload `p`. -/
def deltaMsg (p d : Json) : Msg :=
  { done := false
    message := { role := some assistantLit, content := some (nullish (d.getF contentKey)) }
    model := p.getF modelKey
    created := p.getF createdKey }

theorem deltaPart_msgs_shape (p ch : Json) (a : Option Accum) :
    (deltaPart p ch a).1 = [] ∨
    ∃ d, ch.getF deltaKey = some d ∧ jsTruthy d = true ∧
      (deltaPart p ch a).1 = [deltaMsg p d] := by
  unfold deltaPart
  split
  next d heq =>
    split
    next ht => exact Or.inr ⟨d, heq, ht, rfl⟩
    next => exact Or.inl rfl
  next => exact Or.inl rfl

/-- Any messages `payloadStep` emits come from the payload's `choices[0].delta`:
either none is emitted, or exactly one, the delta message built from that
delta. -/
theorem payloadStep_msgs_shape (acc : Option Accum) (data : List Char) :
    (payloadStep acc data).1 = [] ∨
    ∃ p ch d, jsonParse data = some p ∧
      (p.getF choicesKey).bind jsIndex0 = some ch ∧
      ch.getF deltaKey = some d ∧ jsTruthy d = true ∧
      (payloadStep acc data).1 = [deltaMsg p d] := by
  unfold payloadStep
  split
  · exact Or.inl rfl
  next parsed hp =>
    split
    · exact Or.inl rfl
    · simp only []
      split
      · split
        next choice hch =>
          split
          · exact Or.inl rfl
          · rcases deltaPart_msgs_shape parsed choice ((finishPart parsed choice acc).2) with
              h | ⟨d, h1, h2, h3⟩
            · exact Or.inl h
            · exact Or.inr ⟨parsed, choice, d, hp, hch, h1, h2, h3⟩
        next => exact Or.inl rfl
      · exact Or.inl rfl

/-- C10: every message the normalizer emits for a payload is non-terminal and
has role "assistant" and a content field computed by `choice.delta.content ??
""` from the payloads delta: the empty string when the delta carries no
content (absent or null) and the string itself when the content is a string —
so every well-formed delta frame yields a string content, never null or
undefined. -/
theorem c10_delta_message_shape (acc : Option Accum) (data : List Char) :
    ∀ m ∈ (payloadStep acc data).1,
      m.done = false ∧
      m.message.role = some assistantLit ∧
      ∃ p ch d, jsonParse data = some p ∧
        (p.getF choicesKey).bind jsIndex0 = some ch ∧
        ch.getF deltaKey = some d ∧
        m.message.content = some (nullish (d.getF contentKey)) ∧
        ((d.getF contentKey = none ∨ d.getF contentKey = some .null) →
          m.message.content = some (Json.str [])) ∧
        (∀ s, d.getF contentKey = some (.str s) →
          m.message.content = some (Json.str s)) := by
  intro m hm
  rcases payloadStep_msgs_shape acc data with h | ⟨p, ch, d, hp, hch, hd, ht, hmsgs⟩
  · rw [h] at hm
    simp at hm
  · rw [hmsgs] at hm
    simp only [List.mem_singleton] at hm
    subst hm
    refine ⟨rfl, rfl, p, ch, d, hp, hch, hd, rfl, ?_, ?_⟩
    · rintro (hc | hc) <;> simp [deltaMsg, nullish, hc]
    · intro s hc
      simp [deltaMsg, nullish, hc]

def c10data : List Char := lchars "data: \x7b\"choices\":[\x7b\"delta\":\x7b\"content\":null\x7d\x7d]\x7d"

def c10msg : Msg :=
  { done := false
    message := { role := some assistantLit, content := some (Json.str []) } }

set_option maxRecDepth 100000 in
/-- Witness for C10: the delta frame whose content is null emits exactly the
empty-content assistant message. -/
theorem c10_delta_message_shape_witness :
    c10msg ∈ (payloadStep none (c10data.drop 6)).1 ∧
    (c10msg.done = false ∧
     c10msg.message.role = some assistantLit ∧
     ∃ p ch d, jsonParse (c10data.drop 6) = some p ∧
       (p.getF choicesKey).bind jsIndex0 = some ch ∧
       ch.getF deltaKey = some d ∧
       c10msg.message.content = some (nullish (d.getF contentKey)) ∧
       ((d.getF contentKey = none ∨ d.getF contentKey = some .null) →
         c10msg.message.content = some (Json.str [])) ∧
       (∀ s, d.getF contentKey = some (.str s) →
         c10msg.message.content = some (Json.str s))) :=
  ⟨List.mem_singleton.mpr rfl,
   c10_delta_message_shape none (c10data.drop 6) c10msg (List.mem_singleton.mpr rfl)⟩

def locationKey : List Char := lchars "location"
def parisLit : List Char := lchars "Paris"
def getWeatherLit : List Char := lchars "get_weather"

def c2chunk1 : List Char :=
  lchars "data: \x7b\"choices\":[\x7b\"delta\":\x7b\"content\":\"\",\"tool_calls\":[\x7b\"function\":\x7b\"name\":\"get_weather\",\"arguments\":\"\x7b\\\"location\\\":\"\x7d\x7d]\x7d\x7d]\x7d\n\n"

def c2chunk2 : List Char :=
  lchars "data: \x7b\"choices\":[\x7b\"delta\":\x7b\"content\":\"\",\"tool_calls\":[\x7b\"function\":\x7b\"arguments\":\"\\\"Paris\\\"\x7d\"\x7d\x7d]\x7d\x7d]\x7d\n\n"

def c2chunk3 : List Char :=
  lchars "data: \x7b\"choices\":[\x7b\"finish_reason\":\"tool_calls\"\x7d]\x7d\n\ndata: [DONE]\n\n"

set_option maxRecDepth 400000 in
/-- C2 (evaluating the code at the failing input): the argument string
`{"location":"Paris"}` arrives in two fragments in two transport chunks,
followed by the `tool_calls` finish and `[DONE]`.  As driven by the streaming
handler — `parseResp(buffer)` with `incompleteResult = undefined` on every
call — every fragment's property write throws (caught per line), so the
terminal message carries no tool name and no finalized arguments.  The same
bytes processed in one call with an (empty-object) accumulator finalize to the
structured arguments, as the spec describes. -/
theorem c2_accumulator_not_threaded :
    (streamMessages [c2chunk1, c2chunk2, c2chunk3]).map
        (fun m => (m.done, m.name, m.arguments))
      = [(false, none, none), (false, none, none), (true, none, none)] ∧
    ((parseToOllamaResp (c2chunk1 ++ c2chunk2 ++ c2chunk3) (some emptyAccum)).parsedMessages).map
        (fun m => (m.done, m.name, m.arguments))
      = [(false, none, none), (false, none, none),
         (true, some (Json.str getWeatherLit),
          some (ArgState.parsed (Json.obj [(locationKey, Json.str parisLit)])))] :=
  ⟨rfl, rfl⟩

def c3frame : List Char :=
  lchars "data: \x7b\"choices\":[\x7b\"delta\":\x7b\"content\":\"Hi\"\x7d\x7d]\x7d"

set_option maxRecDepth 100000 in
/-- Witness for C3 at a concrete one-delta stream followed by `[DONE]`. -/
theorem c3_terminal_message_witness :
    (∀ f ∈ [c3frame], noDoneLine f) ∧
    (framesLoop none ([c3frame] ++ [doneFrameText]) =
      ((framesLoop none [c3frame]).1 ++ [doneMsg (framesLoop none [c3frame]).2],
        some emptyAccum) ∧
    (doneMsg (framesLoop none [c3frame]).2).done = true ∧
    (doneMsg (framesLoop none [c3frame]).2).message = {} ∧
    ∀ m ∈ (framesLoop none [c3frame]).1, m.done = false) :=
  ⟨by decide, c3_terminal_message [c3frame] none (by decide)⟩

/-! ## Credential lifecycle claims -/

/-- C8: a non-success status on the token exchange (and any earlier failure)
leaves the stored credential untouched and surfaces an error value to the
caller instead of a refreshed credential. -/
theorem c8_exchange_failure_atomic (st : AuthState) (resp : HttpResponse)
    (h : resp.statusCode ≠ 200) :
    (fetchAndStoreGitHubToken st resp).1 = st ∧
    ∃ e, (fetchAndStoreGitHubToken st resp).2 = Except.error e := by
  have hreq : sendHttpRequest resp = .error (.status resp.statusCode resp.body) := by
    unfold sendHttpRequest
    rw [if_neg h]
  unfold fetchAndStoreGitHubToken
  split
  · exact ⟨rfl, _, rfl⟩
  · split
    · exact ⟨rfl, _, rfl⟩
    · split
      · split
        · exact ⟨rfl, _, rfl⟩
        · rw [hreq]
          exact ⟨rfl, _, rfl⟩
      · exact ⟨rfl, _, rfl⟩

def c8oauthFile : List Char :=
  lchars "\x7b\"github.com:user\":\x7b\"oauth_token\":\"tok\"\x7d\x7d"

def c8state : AuthState := ⟨some c8oauthFile, some (Json.str (lchars "old-credential"))⟩

/-- Witness for C8: a 401 on the exchange with a stored old credential. -/
theorem c8_exchange_failure_atomic_witness :
    (401 : Nat) ≠ 200 ∧
    (fetchAndStoreGitHubToken c8state ⟨401, lchars "denied"⟩).1 = c8state ∧
    ∃ e, (fetchAndStoreGitHubToken c8state ⟨401, lchars "denied"⟩).2 = Except.error e :=
  ⟨by decide,
    (c8_exchange_failure_atomic c8state ⟨401, lchars "denied"⟩ (by decide)).1,
    (c8_exchange_failure_atomic c8state ⟨401, lchars "denied"⟩ (by decide)).2⟩

/-- C9 (amended): `signIn` is a successful no-op when already authenticated
with a valid token and not forced; and whenever `tokenValid` is false — in
particular whenever the stored expiry is nonzero and in the past — `signIn`
runs the token exchange exactly once, without re-running the interactive
device-code flow when the user is still authenticated. -/
theorem c9_signin_lifecycle :
    (∀ post : AuthStatus, signIn ⟨true, true⟩ post false = (true, [])) ∧
    (∀ (e now : Int), e ≠ 0 → e * 1000 < now → checkTokenExpired (some e) now = true) ∧
    (∀ (auth : Bool) (post : AuthStatus) (force : Bool),
      (signIn ⟨auth, false⟩ post force).2.count AuthAction.tokenExchange = 1 ∧
      (auth = true → AuthAction.interactiveAuth ∉ (signIn ⟨auth, false⟩ post force).2)) := by
  refine ⟨fun post => rfl, ?_, ?_⟩
  · intro e now h1 h2
    simp [checkTokenExpired, h1, h2]
  · intro auth post force
    cases auth <;> cases force <;>
      refine ⟨by simp [signIn], fun ha => by simp_all [signIn]⟩

/-- Witness for C9 at concrete statuses and times. -/
theorem c9_signin_lifecycle_witness :
    (1 : Int) ≠ 0 ∧ (1 : Int) * 1000 < 2000 ∧
    checkTokenExpired (some 1) 2000 = true ∧
    signIn ⟨true, true⟩ ⟨true, true⟩ false = (true, []) ∧
    (signIn ⟨true, false⟩ ⟨true, true⟩ false).2.count AuthAction.tokenExchange = 1 :=
  ⟨by decide, by decide,
    c9_signin_lifecycle.2.1 1 2000 (by decide) (by decide),
    c9_signin_lifecycle.1 ⟨true, true⟩,
    (c9_signin_lifecycle.2.2 true ⟨true, true⟩ false).1⟩

/-- C9 counterexample: a stored expiry of `0` (the epoch — strictly in the
past) is falsy in `if (tokenData.expires_at)`, so `#checkTokenExpired` reports
the token as not expired, `tokenValid` is true, and `signIn` is a no-op that
performs zero renewal exchanges, contradicting "whenever the stored
credential's expiry is in the past, exactly one renewal exchange". -/
theorem c9_counterexample :
    (0 : Int) * 1000 < 1000 ∧
    checkTokenExpired (some 0) 1000 = false ∧
    tokenValidOf (some 0) 1000 = true ∧
    signIn ⟨true, tokenValidOf (some 0) 1000⟩ ⟨true, true⟩ false = (true, []) :=
  ⟨by decide, rfl, rfl, rfl⟩
